import Mathlib

/-!
Verification of the spitzer_mir_ext analysis scripts.

This file gives a shallow embedding, over the real numbers, of the numerical
core of the repository scripts `calc_ext.py`, `calc_ext_wG20.py` and
`Figs/old/calc_ext_poly.py`:

* the bounded log-likelihood `lnprob` (both the `calc_ext.py` variant, which
  checks the bounds against the stored model parameter values, and the
  `calc_ext_wG20.py` / `calc_ext_poly.py` variant, which checks the proposed
  values);
* the curve-shape functions `G20._g20_drude_term`, `G20._g20_bkg_term`,
  `Drude1D.evaluate` and `G20.evaluate`;
* the walker-clamping step and the percentile summary of the `p92_emcee`
  driver, and `get_best_fit_params`;
* a model, built from the specification, of the external `ExtData`
  save/load pair.

Python floats are idealised as real numbers; `-np.inf` is the bottom element
of `EReal`; NumPy arrays are lists; an astropy model is a record of parameter
names, parameter values, per-name bounds and an abstract curve shape.
-/

open scoped Classical

noncomputable section

namespace Spitzer

/-! ### Data model: astropy-style fittable models -/

/-- An astropy fittable model as used by `lnprob` and `p92_emcee`:
parameter names with their current values, per-name `(min, max)` bounds
(`none` meaning the bound is not set), and the closed-form curve
`shape values x` giving `model(x)` when the parameters hold `values`. -/
structure FitModel where
  pnames : List String
  values : List ℝ
  bounds : String → Option ℝ × Option ℝ
  shape : List ℝ → ℝ → ℝ

/-- `exec("model.{}.value = {}".format(cname, v))`: overwrite the value of the
named parameter in place. -/
def FitModel.setP (m : FitModel) (name : String) (v : ℝ) : FitModel :=
  { m with values := (m.pnames.zip m.values).map (fun q => if q.1 = name then v else q.2) }

/-- `dict(zip(model.param_names, model.parameters))[name]`: the stored value of
the named parameter (with dict semantics, a later duplicate binding wins; the
`KeyError` case off the claims' domain is rendered as the default 0). -/
def FitModel.pdict (m : FitModel) (name : String) : ℝ :=
  (((m.pnames.zip m.values).foldl
      (fun acc q => if q.1 = name then some q.2 else acc) none).getD 0)

/-- Set a whole list of `(name, value)` pairs in order. -/
def FitModel.setAll (m : FitModel) (L : List (String × ℝ)) : FitModel :=
  L.foldl (fun mm q => mm.setP q.1 q.2) m

/-- `model.bounds[cname][0] is not None and v < model.bounds[cname][0]`. -/
def violatesLo (b : Option ℝ) (v : ℝ) : Prop :=
  match b with
  | some lb => v < lb
  | none => False

/-- `model.bounds[cname][1] is not None and v > model.bounds[cname][1]`. -/
def violatesHi (b : Option ℝ) (v : ℝ) : Prop :=
  match b with
  | some ub => v > ub
  | none => False

/-- The value `v` fails the configured `[min, max]` bounds `b`. -/
def violates (b : Option ℝ × Option ℝ) (v : ℝ) : Prop :=
  violatesLo b.1 v ∨ violatesHi b.2 v

/-- The value `v` respects the configured bounds `b`. -/
def withinBounds (b : Option ℝ × Option ℝ) (v : ℝ) : Prop :=
  (∀ lb, b.1 = some lb → lb ≤ v) ∧ (∀ ub, b.2 = some ub → v ≤ ub)

/-! ### The bounded log-likelihood `lnprob` -/

/-- `-0.5*np.sum(((model(x) - y)/uncs)**2)` without the `-0.5` factor:
the weighted sum of squared residuals of the model at its current values. -/
def chisqr (m : FitModel) (x y uncs : List ℝ) : ℝ :=
  (((x.zip (y.zip uncs)).map
      (fun t => ((m.shape m.values t.1 - t.2.1) / t.2.2) ^ 2)).sum)

/-- The parameter loop of `lnprob` in `calc_ext_wG20.py` (and
`calc_ext_poly.py`): walk `zip(param_names, params)`, rejecting as soon as a
proposed value breaks its bounds and otherwise writing it into the model.
Returns the model (some values may already be overwritten) and whether the
loop survived. -/
def lnprobScan (m : FitModel) : List (String × ℝ) → FitModel × Bool
  | [] => (m, true)
  | q :: rest =>
    if violates (m.bounds q.1) q.2 then (m, false)
    else lnprobScan (m.setP q.1 q.2) rest

/-- `lnprob(params, x, y, uncs, model, param_names)` from `calc_ext_wG20.py`
lines 342-372: the log-likelihood, `⊥` (= `-np.inf`) on rejection, together
with the state of the mutated `model` argument after the call. -/
def lnprob_wG20 (params : List ℝ) (x y uncs : List ℝ) (model : FitModel)
    (param_names : List String) : EReal × FitModel :=
  let r := lnprobScan model (param_names.zip params)
  if r.2 then (((-(1 / 2) * chisqr r.1 x y uncs : ℝ) : EReal), r.1) else (⊥, r.1)

/-- The parameter loop of `lnprob` in `calc_ext.py` lines 58-68: same shape,
except that the bounds are compared against `param_dict[cname]`, the snapshot
`m0` of the model values taken at entry, not against the proposed value. -/
def lnprobScanOrig (m0 : FitModel) (m : FitModel) : List (String × ℝ) → FitModel × Bool
  | [] => (m, true)
  | q :: rest =>
    if violates (m.bounds q.1) (m0.pdict q.1) then (m, false)
    else lnprobScanOrig m0 (m.setP q.1 q.2) rest

/-- `lnprob(params, x, y, uncs, model, param_names)` from `calc_ext.py`
lines 39-69. -/
def lnprob_orig (params : List ℝ) (x y uncs : List ℝ) (model : FitModel)
    (param_names : List String) : EReal × FitModel :=
  let r := lnprobScanOrig model model (param_names.zip params)
  if r.2 then (((-(1 / 2) * chisqr r.1 x y uncs : ℝ) : EReal), r.1) else (⊥, r.1)

/-- A one-parameter model (parameter `a`, stored value `v`, bounds `[0, 2]`,
curve = the parameter value, constant in wavelength) used to evaluate the two
`lnprob` variants on concrete inputs. -/
def mA (v : ℝ) : FitModel :=
  { pnames := ["a"], values := [v],
    bounds := fun n => if n = "a" then (some 0, some 2) else (none, none),
    shape := fun vals _ => vals.getD 0 0 }

/-- A two-parameter model (`a` unbounded, `b` bounded to `[0, 2]`, both stored
values 0) used to exhibit the in-place mutation of the model on rejection. -/
def mB : FitModel :=
  { pnames := ["a", "b"], values := [0, 0],
    bounds := fun n => if n = "b" then (some 0, some 2) else (none, none),
    shape := fun vals _ => vals.getD 0 0 }

/-! ### Curve shapes -/

/-- `G20._g20_drude_term(waves, amplitude, cen_wave, width)` from
`calc_ext_wG20.py` lines 242-273. -/
def g20_drude_term (waves amplitude cen_wave width : ℝ) : ℝ :=
  amplitude * ((width / cen_wave) ^ 2)
    / ((waves / cen_wave - cen_wave / waves) ^ 2 + (width / cen_wave) ^ 2)

/-- `G20._g20_bkg_term(in_lambda, amplitude, cen_wave, b, n)` from
`calc_ext_wG20.py` lines 212-240; `np.power` on the positive quantities in use
is the real power `Real.rpow`. -/
def g20_bkg_term (in_lambda amplitude cen_wave b n : ℝ) : ℝ :=
  amplitude / ((in_lambda / cen_wave) ^ n + (in_lambda / cen_wave) ^ (-1 * n) + b)

/-- `Drude1D.evaluate(x, amplitude, x_0, fwhm)` from
`Figs/old/calc_ext_poly.py` lines 67-76. -/
def Drude1D_evaluate (x amplitude x_0 fwhm : ℝ) : ℝ :=
  amplitude * ((fwhm / x_0) ^ 2)
    / ((x / x_0 - x_0 / x) ^ 2 + (fwhm / x_0) ^ 2)

/-- Modelled from the spec: `_get_x_in_wavenumbers` of the external
`dust_extinction.helpers` is not part of this repository; on unitless input
the values are already "wavelengths in wavenumbers [1/micron]"
(`G20.evaluate` docstring), so it is the identity on the array. -/
def get_x_in_wavenumbers (in_x : List ℝ) : List ℝ := in_x

/-- Modelled from the spec: `_test_valid_x_range` of the external
`dust_extinction.helpers` is not part of this repository; per the spec,
"out-of-declared-range wavenumbers raise a validation error", i.e. a
`ValueError` as soon as any wavenumber is below or above the declared range. -/
def test_valid_x_range (x : List ℝ) (x_range : ℝ × ℝ) (outname : String) :
    Except String Unit :=
  if ∃ v ∈ x, v < x_range.1 ∨ v > x_range.2 then
    Except.error ("Input x outside of range defined for " ++ outname)
  else Except.ok ()

/-- `G20.x_range = [1.0 / 1e3, 1.0 / 1e-3]` from `calc_ext_wG20.py` line 210. -/
def G20_x_range : ℝ × ℝ := (1 / 1000, 1 / (1 / 1000))

/-- `AbAv = 1.0 / 3.08 + 1.0` from `calc_ext_wG20.py` line 161. -/
def G20_AbAv : ℝ := 1.0 / 3.08 + 1.0

/-- The 19 parameters of the `G20` model, with the `Parameter` defaults of
`calc_ext_wG20.py` lines 163-208 (the bounds and fixed flags declared there
belong to the fitting setup, not to `evaluate`). -/
structure G20Params where
  BKG_amp : ℝ := 165.0 * G20_AbAv
  BKG_lambda : ℝ := 0.047
  BKG_b : ℝ := 90.0
  BKG_n : ℝ := 2.0
  FUV_amp : ℝ := 14.0 * G20_AbAv
  FUV_lambda : ℝ := 0.07
  FUV_width : ℝ := 1.0
  NUV_amp : ℝ := 0.045 * G20_AbAv
  NUV_lambda : ℝ := 0.22
  NUV_width : ℝ := 1.0
  SIL1_amp : ℝ := 0.002 * G20_AbAv
  SIL1_lambda : ℝ := 9.7
  SIL1_width : ℝ := 1.0
  SIL2_amp : ℝ := 0.002 * G20_AbAv
  SIL2_lambda : ℝ := 18.0
  SIL2_width : ℝ := 1.0
  FIR_amp : ℝ := 0.012 * G20_AbAv
  FIR_lambda : ℝ := 25.0
  FIR_width : ℝ := 1.0

/-- `G20.evaluate` from `calc_ext_wG20.py` lines 275-336: validate the
wavenumber range (`ValueError` rendered as `Except.error`), then sum the
background term and the five Drude terms at `lam = 1.0 / x`. -/
def G20_evaluate (in_x : List ℝ) (p : G20Params) : Except String (List ℝ) :=
  let x := get_x_in_wavenumbers in_x
  match test_valid_x_range x G20_x_range "G20" with
  | Except.error e => Except.error e
  | Except.ok _ =>
    Except.ok (x.map (fun xi =>
      let lam := 1 / xi
      g20_bkg_term lam p.BKG_amp p.BKG_lambda p.BKG_b p.BKG_n
        + g20_drude_term lam p.FUV_amp p.FUV_lambda p.FUV_width
        + g20_drude_term lam p.NUV_amp p.NUV_lambda p.NUV_width
        + g20_drude_term lam p.SIL1_amp p.SIL1_lambda p.SIL1_width
        + g20_drude_term lam p.SIL2_amp p.SIL2_lambda p.SIL2_width
        + g20_drude_term lam p.FIR_amp p.FIR_lambda p.FIR_width))

/-! ### Walker clamping in `p92_emcee` -/

/-- One component of the "ensure all the walkers start within the bounds" step
(`calc_ext_wG20.py` lines 484-496): pull `v` up to a set lower bound, then pull
the result down to a set upper bound. -/
def clamp1 (b : Option ℝ × Option ℝ) (v : ℝ) : ℝ :=
  let v1 :=
    match b.1 with
    | some lb => if v < lb then lb else v
    | none => v
  match b.2 with
  | some ub => if v1 > ub then ub else v1
  | none => v1

/-- The clamping loop applied to one walker starting position `cp`. -/
def clampWalker (m : FitModel) (fit_param_names : List String) (cp : List ℝ) :
    List ℝ :=
  (fit_param_names.zip cp).map (fun q => clamp1 (m.bounds q.1) q.2)

/-! ### The emcee sampler results: best fit and percentiles -/

/-- The part of an emcee sampler read by `get_best_fit_params` and the
percentile summary: per-walker log-probability sequences (values in `EReal`,
so `-np.inf` is `⊥`) and per-walker, per-step parameter vectors. -/
structure Sampler where
  lnprobability : List (List EReal)
  chain : List (List (List ℝ))

/-- `np.max` over one walker's log-probability row. -/
def np_max (row : List EReal) : EReal := row.foldl max ⊥

/-- `np.where(row == v)[0][0]`: the first index of `v` in `row`. -/
def firstIdx (row : List EReal) (v : EReal) : ℕ :=
  row.findIdx (fun w => decide (w = v))

/-- The walker loop of `get_best_fit_params` (`calc_ext.py` lines 85-94):
running maximum `max_lnp` and current best parameter vector. -/
def gbf_go : List (List EReal × List (List ℝ)) → EReal → Option (List ℝ) →
    Option (List ℝ)
  | [], _, best => best
  | p :: rest, max_lnp, best =>
    let tmax := np_max p.1
    if max_lnp < tmax then
      gbf_go rest tmax (some (p.2.getD (firstIdx p.1 tmax) []))
    else gbf_go rest max_lnp best

/-- `get_best_fit_params(sampler)` from `calc_ext.py` lines 72-94 (identical in
`calc_ext_wG20.py` lines 375-397): the running maximum starts at `-1e32`. -/
def get_best_fit_params (sampler : Sampler) : Option (List ℝ) :=
  gbf_go (sampler.lnprobability.zip sampler.chain) ((-(10 ^ 32) : ℝ) : EReal) none

/-- The maximum log-probability over all walkers and all stored steps. -/
def globalMax (sampler : Sampler) : EReal := np_max sampler.lnprobability.flatten

/-- Specification-side reading of `get_best_fit_params`: the parameter vector
of the chain sample at the first (walker, step) index attaining the maximum
log-probability over all walkers and steps. -/
def spec_best (sampler : Sampler) : Option (List ℝ) :=
  match (sampler.lnprobability.zip sampler.chain).find?
      (fun p => decide (globalMax sampler ∈ p.1)) with
  | some p => some (p.2.getD (firstIdx p.1 (globalMax sampler)) [])
  | none => none

/-- A one-walker, one-step sampler whose only stored log-probability is
`-1e33`, below the `-1e32` threshold of `get_best_fit_params`. -/
def sLow : Sampler := ⟨[[((-(10 ^ 33) : ℝ) : EReal)]], [[[1]]]⟩

/-- A one-walker, one-step sampler with log-probability 1 and chain sample
`[7]`. -/
def sOne : Sampler := ⟨[[((1 : ℝ) : EReal)]], [[[7]]]⟩

/-- A one-walker, one-step sampler whose only stored log-probability is
`-np.inf`, as after an all-rejected run. -/
def sBot : Sampler := ⟨[[(⊥ : EReal)]], [[[1]]]⟩

/-! ### The percentile summary of `p92_emcee` -/

/-- Python `zip` of three equal-length rows (`zip(*np.percentile(...))`). -/
def pyZip3 : List ℝ → List ℝ → List ℝ → List (ℝ × ℝ × ℝ)
  | a :: l₁, b :: l₂, c :: l₃ => (a, b, c) :: pyZip3 l₁ l₂ l₃
  | _, _, _ => []

/-- Ascending sort, as used inside `np.percentile`. -/
def sortR (xs : List ℝ) : List ℝ := xs.mergeSort (fun a b => decide (a ≤ b))

/-- `np.percentile(xs, q)` with the default linear interpolation: the sorted
sample is read at the virtual index `q/100 * (n - 1)`. -/
def np_percentile (q : ℝ) (xs : List ℝ) : ℝ :=
  let s := sortR xs
  let h : ℝ := q / 100 * ((xs.length : ℝ) - 1)
  let i : ℕ := Nat.floor h
  s.getD i 0 + (h - (i : ℝ)) * (s.getD (i + 1) 0 - s.getD i 0)

/-- `reshape((-1, n))` of a row-major buffer: cut into consecutive rows of
length `n` (`n = 0`, an error in NumPy, yields the empty list). -/
def chunks (n : ℕ) (buf : List ℝ) : List (List ℝ) :=
  if h : buf = [] ∨ n = 0 then []
  else buf.take n :: chunks n (buf.drop n)
termination_by buf.length
decreasing_by
  push_neg at h
  have hpos : 0 < buf.length := List.length_pos.mpr h.1
  simp only [List.length_drop]
  exact Nat.sub_lt hpos (Nat.pos_of_ne_zero h.2)

/-- Lines 520-524 of `calc_ext_wG20.py`:
`samples = sampler.chain.reshape((-1, ndim))` followed by
`map(lambda v: (v[1], v[2]-v[1], v[1]-v[0]), zip(*np.percentile(samples, [16, 50, 84], axis=0)))`. -/
def emcee_per_params (chain : List (List (List ℝ))) (ndim : ℕ) :
    List (ℝ × ℝ × ℝ) :=
  let samples := chunks ndim chain.flatten.flatten
  let pq : ℝ → List ℝ := fun q =>
    (List.range ndim).map (fun d => np_percentile q (samples.map (fun r => r.getD d 0)))
  (pyZip3 (pq 16) (pq 50) (pq 84)).map (fun v => (v.2.1, v.2.2 - v.2.1, v.2.1 - v.1))

/-- Specification-side reading: for each fit parameter, the triple
`(p50, p84 - p50, p50 - p16)` of the percentiles of that parameter's marginal
over all samples flattened across all walkers. -/
def spec_per_params (chain : List (List (List ℝ))) (ndim : ℕ) :
    List (ℝ × ℝ × ℝ) :=
  (List.range ndim).map (fun d =>
    let marg := chain.flatten.map (fun v => v.getD d 0)
    (np_percentile 50 marg, np_percentile 84 marg - np_percentile 50 marg,
      np_percentile 50 marg - np_percentile 16 marg))

/-! ### ExtData save/load -/

/-- Modelled from the spec: the arrays one passband of an `ExtData` holds,
"(wavelength, extinction value, uncertainty, number of points)"; the
implementation lives in the external `measure_extinction` package and is not
part of this repository. -/
structure ExtCols where
  waves : List ℝ
  exts : List ℝ
  uncs : List ℝ
  npts : List ℝ

/-- Modelled from the spec: `ExtData`, "a mapping from passband/instrument
name to arrays of (wavelength, extinction value, uncertainty, number of
points); supports save/load to a structured file format". -/
structure ExtDataM where
  exts : List (String × ExtCols)

/-- Modelled from the spec: one extension of the structured (FITS-like) file
format, a named block of named columns. -/
structure HDU where
  extname : String
  cols : List (String × List ℝ)

/-- Modelled from the spec: `ExtData.save` (external `measure_extinction`)
writes one structured extension per passband holding its four arrays as named
columns. -/
def ExtData_save (e : ExtDataM) : List HDU :=
  e.exts.map (fun p =>
    ⟨p.1, [("WAVELENGTH", p.2.waves), ("EXT", p.2.exts),
           ("UNC", p.2.uncs), ("NPTS", p.2.npts)]⟩)

/-- Read a named column back from an extension (missing column: empty). -/
def getCol (h : HDU) (name : String) : List ℝ :=
  match h.cols.find? (fun c => c.1 == name) with
  | some c => c.2
  | none => []

/-- Modelled from the spec: constructing `ExtData` from a saved file reads
each extension's named columns back into the per-passband arrays. -/
def ExtData_load (f : List HDU) : ExtDataM :=
  ⟨f.map (fun h => (h.extname,
    ⟨getCol h "WAVELENGTH", getCol h "EXT", getCol h "UNC", getCol h "NPTS"⟩))⟩

/-! ## Theorems -/

/-! ### Bounds behaviour of the two lnprob variants -/

theorem FitModel.setP_bounds (m : FitModel) (n : String) (v : ℝ) :
    (m.setP n v).bounds = m.bounds := rfl

theorem lnprobScan_reject {m : FitModel} {L : List (String × ℝ)}
    (h : ∃ q ∈ L, violates (m.bounds q.1) q.2) : (lnprobScan m L).2 = false := by
  induction L generalizing m with
  | nil => simp at h
  | cons q rest ih =>
    obtain ⟨r, hr, hv⟩ := h
    by_cases hq : violates (m.bounds q.1) q.2
    · simp [lnprobScan, hq]
    · rcases List.mem_cons.mp hr with h1 | h1
      · exact absurd (h1 ▸ hv) hq
      · simp only [lnprobScan, if_neg hq]
        exact ih ⟨r, h1, hv⟩

theorem lnprobScan_accept {m : FitModel} {L : List (String × ℝ)}
    (h : ∀ q ∈ L, ¬ violates (m.bounds q.1) q.2) :
    lnprobScan m L = (m.setAll L, true) := by
  induction L generalizing m with
  | nil => rfl
  | cons q rest ih =>
    have hq := h q (List.mem_cons_self q rest)
    simp only [lnprobScan, if_neg hq]
    exact ih (fun r hr => h r (List.mem_cons_of_mem q hr))

theorem lnprobScan_reject_at {m : FitModel} {A : List (String × ℝ)}
    {q : String × ℝ} {B : List (String × ℝ)}
    (hA : ∀ r ∈ A, ¬ violates (m.bounds r.1) r.2)
    (hq : violates (m.bounds q.1) q.2) :
    lnprobScan m (A ++ q :: B) = (m.setAll A, false) := by
  induction A generalizing m with
  | nil => simp only [List.nil_append, lnprobScan, if_pos hq]; rfl
  | cons r rest ih =>
    have hr := hA r (List.mem_cons_self r rest)
    simp only [List.cons_append, lnprobScan, if_neg hr]
    exact ih (fun t ht => hA t (List.mem_cons_of_mem r ht)) hq

/-- The `calc_ext_wG20.py` variant does reject every proposal containing an
out-of-bounds component. -/
theorem lnprob_wG20_out_of_bounds (params x y uncs : List ℝ) (model : FitModel)
    (param_names : List String)
    (h : ∃ q ∈ param_names.zip params, violates (model.bounds q.1) q.2) :
    (lnprob_wG20 params x y uncs model param_names).1 = ⊥ := by
  have h2 := lnprobScan_reject h
  simp [lnprob_wG20, h2]

/-- The `calc_ext_wG20.py` variant, on an everywhere-in-bounds proposal,
writes all proposed values into the model and returns the weighted
sum-of-squared-residuals likelihood. -/
theorem lnprob_wG20_in_bounds (params x y uncs : List ℝ) (model : FitModel)
    (param_names : List String)
    (h : ∀ q ∈ param_names.zip params, ¬ violates (model.bounds q.1) q.2) :
    lnprob_wG20 params x y uncs model param_names =
      (((-(1 / 2) * chisqr (model.setAll (param_names.zip params)) x y uncs : ℝ) : EReal),
        model.setAll (param_names.zip params)) := by
  simp [lnprob_wG20, lnprobScan_accept h]

/-- C1: the claim says every proposal with an out-of-bounds component makes
`lnprob` return negative infinity.  The `calc_ext.py` variant violates this:
with the stored parameter value 1 inside its bounds `[0, 2]`, the out-of-bounds
proposal 5 passes the check (which reads the stored value, not the proposal),
is written into the model, and the finite likelihood `-25/2` is returned. -/
theorem C1_calc_ext_bug :
    violates ((mA 1).bounds "a") 5 ∧
    lnprob_orig [5] [1] [0] [1] (mA 1) ["a"]
      = (((-(25 / 2) : ℝ) : EReal), (mA 1).setP "a" 5) ∧
    (((-(25 / 2) : ℝ) : EReal)) ≠ ⊥ := by
  refine ⟨?_, ?_, EReal.coe_ne_bot _⟩
  · right
    show (5 : ℝ) > 2
    norm_num
  · have hnv : ¬ violates ((mA 1).bounds "a") ((mA 1).pdict "a") := by
      rw [show (mA 1).pdict "a" = 1 from rfl]
      rintro (hlo | hhi)
      · exact absurd (show (1 : ℝ) < 0 from hlo) (by norm_num)
      · exact absurd (show (1 : ℝ) > 2 from hhi) (by norm_num)
    simp only [lnprob_orig, lnprobScanOrig, List.zip_cons_cons, List.zip_nil_right,
      if_neg hnv]
    norm_num [chisqr, FitModel.setP, mA]

/-- C2: the claim says every everywhere-in-bounds proposal yields the weighted
sum-of-squared-residuals likelihood.  The `calc_ext.py` variant violates this:
with the stored parameter value 5 outside its bounds `[0, 2]`, the in-bounds
proposal 1 is rejected with negative infinity. -/
theorem C2_calc_ext_bug :
    ¬ violates ((mA 5).bounds "a") 1 ∧
    lnprob_orig [1] [1] [0] [1] (mA 5) ["a"] = ((⊥ : EReal), mA 5) ∧
    (⊥ : EReal) ≠
      ((-(1 / 2) * chisqr ((mA 5).setP "a" 1) [1] [0] [1] : ℝ) : EReal) := by
  refine ⟨?_, ?_, (EReal.coe_ne_bot _).symm⟩
  · rintro (hlo | hhi)
    · exact absurd (show (1 : ℝ) < 0 from hlo) (by norm_num)
    · exact absurd (show (1 : ℝ) > 2 from hhi) (by norm_num)
  · have hv : violates ((mA 5).bounds "a") ((mA 5).pdict "a") := by
      rw [show (mA 5).pdict "a" = 5 from rfl]
      right
      show (5 : ℝ) > 2
      norm_num
    simp only [lnprob_orig, lnprobScanOrig, List.zip_cons_cons, List.zip_nil_right,
      if_pos hv]
    simp

/-- C9: `lnprob` (the `calc_ext_wG20.py` / `calc_ext_poly.py` variant) is not
atomic on rejection: if the proposal is rejected at the parameter `q` while
all earlier parameters `A` pass their bounds, the returned likelihood is
negative infinity but the model argument has already had the proposed values
of all parameters in `A` written into it. -/
theorem C9_rejection_mutates (params x y uncs : List ℝ) (m : FitModel)
    (param_names : List String) (A : List (String × ℝ)) (q : String × ℝ)
    (B : List (String × ℝ))
    (hzip : param_names.zip params = A ++ q :: B)
    (hA : ∀ r ∈ A, ¬ violates (m.bounds r.1) r.2)
    (hq : violates (m.bounds q.1) q.2) :
    lnprob_wG20 params x y uncs m param_names = ((⊥ : EReal), m.setAll A) := by
  simp [lnprob_wG20, hzip, lnprobScan_reject_at hA hq]

/-- C9 witness: with parameters `a` (unbounded) and `b` (bounds `[0, 2]`), the
proposal `[1, 5]` is rejected at `b` but the value of `a` has been set to 1. -/
theorem C9_witness :
    (["a", "b"].zip [(1 : ℝ), 5] = [("a", (1 : ℝ))] ++ ("b", (5 : ℝ)) :: []) ∧
    (∀ r ∈ [("a", (1 : ℝ))], ¬ violates (mB.bounds r.1) r.2) ∧
    violates (mB.bounds "b") 5 ∧
    lnprob_wG20 [1, 5] [] [] [] mB ["a", "b"] = ((⊥ : EReal), mB.setAll [("a", 1)]) := by
  have h1 : ["a", "b"].zip [(1 : ℝ), 5] = [("a", (1 : ℝ))] ++ ("b", (5 : ℝ)) :: [] := rfl
  have h2 : ∀ r ∈ [("a", (1 : ℝ))], ¬ violates (mB.bounds r.1) r.2 := by
    intro r hr
    rw [List.mem_singleton] at hr
    subst hr
    rintro (hlo | hhi)
    · exact hlo
    · exact hhi
  have h3 : violates (mB.bounds "b") 5 := by
    right
    show (5 : ℝ) > 2
    norm_num
  exact ⟨h1, h2, h3, C9_rejection_mutates [1, 5] [] [] [] mB ["a", "b"]
    [("a", 1)] ("b", 5) [] h1 h2 h3⟩

/-! ### Peak values of the curve shapes -/

/-- C3 counterexample: the G20 background term evaluated at its central
wavelength does not return its amplitude parameter: with amplitude 1,
central wavelength 1, b = 90 and n = 2 it returns `1/92`. -/
theorem C3_bkg_center_counterexample : g20_bkg_term 1 1 1 90 2 ≠ 1 := by
  unfold g20_bkg_term
  norm_num [Real.one_rpow]

/-- C3 (amended): at the central wavelength, each Drude-shaped term
(`_g20_drude_term` and `Drude1D.evaluate`) returns its amplitude parameter
(for nonzero centre and width), while the background term `_g20_bkg_term`
returns its amplitude divided by `2 + b`. -/
theorem C3_peak_amended :
    (∀ a c w : ℝ, c ≠ 0 → w ≠ 0 → g20_drude_term c a c w = a) ∧
    (∀ a x0 f : ℝ, x0 ≠ 0 → f ≠ 0 → Drude1D_evaluate x0 a x0 f = a) ∧
    (∀ a c b n : ℝ, c ≠ 0 → g20_bkg_term c a c b n = a / (2 + b)) := by
  refine ⟨?_, ?_, ?_⟩
  · intro a c w hc hw
    unfold g20_drude_term
    have ht : (w / c) ^ 2 ≠ 0 := pow_ne_zero 2 (div_ne_zero hw hc)
    rw [sub_self, zero_pow (by norm_num), zero_add, mul_div_assoc, div_self ht,
      mul_one]
  · intro a x0 f h0 hf
    unfold Drude1D_evaluate
    have ht : (f / x0) ^ 2 ≠ 0 := pow_ne_zero 2 (div_ne_zero hf h0)
    rw [sub_self, zero_pow (by norm_num), zero_add, mul_div_assoc, div_self ht,
      mul_one]
  · intro a c b n hc
    unfold g20_bkg_term
    rw [div_self hc, Real.one_rpow, Real.one_rpow]
    ring_nf

/-- C3 witness: peak values at concrete parameters. -/
theorem C3_peak_witness :
    ((2 : ℝ) ≠ 0 ∧ (3 : ℝ) ≠ 0 ∧ g20_drude_term 2 5 2 3 = 5) ∧
    ((3 : ℝ) ≠ 0 ∧ (2 : ℝ) ≠ 0 ∧ Drude1D_evaluate 3 7 3 2 = 7) ∧
    g20_bkg_term 2 4 2 90 2 = 4 / (2 + 90) :=
  ⟨⟨by norm_num, by norm_num, C3_peak_amended.1 5 2 3 (by norm_num) (by norm_num)⟩,
   ⟨by norm_num, by norm_num, C3_peak_amended.2.1 7 3 2 (by norm_num) (by norm_num)⟩,
   C3_peak_amended.2.2 4 2 90 2 (by norm_num)⟩

/-! ### Range validation of G20.evaluate -/

/-- C4: evaluating the G20 model on an input array containing a wavenumber
outside the declared range `x_range = [1/1e3, 1/1e-3]` produces a validation
error rather than a value. -/
theorem C4_out_of_range_error (in_x : List ℝ) (p : G20Params)
    (h : ∃ v ∈ in_x, v < G20_x_range.1 ∨ v > G20_x_range.2) :
    G20_evaluate in_x p = Except.error ("Input x outside of range defined for G20") := by
  have hval : test_valid_x_range (get_x_in_wavenumbers in_x) G20_x_range "G20"
      = Except.error ("Input x outside of range defined for " ++ "G20") := by
    unfold test_valid_x_range get_x_in_wavenumbers
    rw [if_pos h]
  simp only [G20_evaluate]
  rw [hval]
  rfl

/-- C4 witness: the wavenumber 2000 lies above the declared range. -/
theorem C4_witness :
    (∃ v ∈ [(2000 : ℝ)], v < G20_x_range.1 ∨ v > G20_x_range.2) ∧
    G20_evaluate [2000] {} = Except.error ("Input x outside of range defined for G20") := by
  have h : ∃ v ∈ [(2000 : ℝ)], v < G20_x_range.1 ∨ v > G20_x_range.2 := by
    refine ⟨2000, List.mem_singleton_self _, Or.inr ?_⟩
    norm_num [G20_x_range]
  exact ⟨h, C4_out_of_range_error [2000] {} h⟩

/-! ### Walker clamping -/

theorem clamp1_within (b : Option ℝ × Option ℝ) (v : ℝ)
    (hcons : ∀ lb ub, b.1 = some lb → b.2 = some ub → lb ≤ ub) :
    withinBounds b (clamp1 b v) := by
  obtain ⟨blo, bhi⟩ := b
  have key : ∀ lo : ℝ, blo = some lo → lo ≤ clamp1 (blo, bhi) v := by
    intro lo hlo
    subst hlo
    have h1 : lo ≤ (if v < lo then lo else v) := by
      split_ifs with hv
      · exact le_refl lo
      · exact le_of_not_lt hv
    cases bhi with
    | none => simpa [clamp1] using h1
    | some ub =>
      have hub : lo ≤ ub := hcons lo ub rfl rfl
      simp only [clamp1]
      split_ifs with h2 h3
      · exact hub
      · exact le_refl lo
      · exact hub
      · exact le_of_not_lt h2
  have key2 : ∀ hi : ℝ, bhi = some hi → clamp1 (blo, bhi) v ≤ hi := by
    intro hi hhi
    subst hhi
    simp only [clamp1]
    split_ifs with h2
    all_goals first
      | exact le_refl hi
      | exact le_of_not_lt (by assumption)
  exact ⟨key, key2⟩

/-- C5: after the clamping step of the walker setup in `p92_emcee`, every
component of the walker position respects its configured bounds (assuming, as
in every model configured by the scripts, that a set lower bound never exceeds
a set upper bound for the same parameter). -/
theorem C5_clamped_within_bounds (m : FitModel) (fit_param_names : List String)
    (cp : List ℝ)
    (hcons : ∀ name lb ub, (m.bounds name).1 = some lb →
      (m.bounds name).2 = some ub → lb ≤ ub)
    (i : ℕ) (h1 : i < fit_param_names.length) (h2 : i < cp.length) :
    withinBounds (m.bounds (fit_param_names.getD i ""))
      ((clampWalker m fit_param_names cp).getD i 0) := by
  have hz : i < (fit_param_names.zip cp).length := by
    rw [List.length_zip]
    omega
  have hc : i < (clampWalker m fit_param_names cp).length := by
    simpa only [clampWalker, List.length_map] using hz
  rw [List.getD_eq_getElem _ _ hc, List.getD_eq_getElem _ _ h1]
  simp only [clampWalker, List.getElem_map]
  rw [List.getElem_zip]
  exact clamp1_within _ _ (fun lb ub => hcons _ lb ub)

/-- C5 witness: the walker component -5 of the one-parameter model with bounds
`[0, 2]` is clamped into its bounds. -/
theorem C5_witness :
    (∀ name lb ub, ((mA 1).bounds name).1 = some lb →
      ((mA 1).bounds name).2 = some ub → lb ≤ ub) ∧
    withinBounds ((mA 1).bounds (["a"].getD 0 ""))
      ((clampWalker (mA 1) ["a"] [-5]).getD 0 0) := by
  have hcons : ∀ name lb ub, ((mA 1).bounds name).1 = some lb →
      ((mA 1).bounds name).2 = some ub → lb ≤ ub := by
    intro name lb ub hlb hub
    by_cases hn : name = "a"
    · simp [mA, hn] at hlb hub
      rw [← hlb, ← hub]
      norm_num
    · simp [mA, hn] at hlb
  exact ⟨hcons,
    C5_clamped_within_bounds (mA 1) ["a"] [-5] hcons 0 (by norm_num) (by norm_num)⟩

/-! ### get_best_fit_params -/

theorem foldl_max_init (l : List EReal) (init : EReal) :
    l.foldl max init = max init (np_max l) := by
  induction l generalizing init with
  | nil =>
    show init = max init (⊥ : EReal)
    rw [max_eq_left bot_le]
  | cons a t ih =>
    show t.foldl max (max init a) = max init (np_max (a :: t))
    have hnp : np_max (a :: t) = max a (np_max t) := by
      show t.foldl max (max ⊥ a) = _
      rw [show (max ⊥ a : EReal) = a from max_eq_right bot_le, ih a]
    rw [ih (max init a), hnp, max_assoc]

theorem np_max_cons (a : EReal) (t : List EReal) :
    np_max (a :: t) = max a (np_max t) := by
  show t.foldl max (max ⊥ a) = _
  rw [show (max ⊥ a : EReal) = a from max_eq_right bot_le, foldl_max_init]

theorem le_np_max {v : EReal} {l : List EReal} (h : v ∈ l) : v ≤ np_max l := by
  induction l with
  | nil => cases h
  | cons a t ih =>
    rw [np_max_cons]
    rcases List.mem_cons.mp h with h1 | h1
    · exact h1 ▸ le_max_left _ _
    · exact le_trans (ih h1) (le_max_right _ _)

theorem np_max_le {l : List EReal} {c : EReal} (h : ∀ v ∈ l, v ≤ c) :
    np_max l ≤ c := by
  induction l with
  | nil => exact bot_le
  | cons a t ih =>
    rw [np_max_cons]
    exact max_le (h a (List.mem_cons_self a t))
      (ih fun v hv => h v (List.mem_cons_of_mem a hv))

theorem np_max_mem {l : List EReal} (h : l ≠ []) : np_max l ∈ l := by
  induction l with
  | nil => exact absurd rfl h
  | cons a t ih =>
    rw [np_max_cons]
    rcases eq_or_ne t [] with ht | ht
    · subst ht
      rw [show np_max ([] : List EReal) = ⊥ from rfl, max_eq_left bot_le]
      exact List.mem_singleton_self a
    · rcases le_total (np_max t) a with hle | hle
      · rw [max_eq_left hle]
        exact List.mem_cons_self a t
      · rw [max_eq_right hle]
        exact List.mem_cons_of_mem a (ih ht)

theorem np_max_append (l₁ l₂ : List EReal) :
    np_max (l₁ ++ l₂) = max (np_max l₁) (np_max l₂) := by
  show (l₁ ++ l₂).foldl max ⊥ = _
  rw [List.foldl_append, foldl_max_init]
  rfl

theorem gbf_go_stall : ∀ (L : List (List EReal × List (List ℝ)))
    (max_lnp : EReal) (best : Option (List ℝ)),
    (∀ p ∈ L, np_max p.1 ≤ max_lnp) → gbf_go L max_lnp best = best := by
  intro L
  induction L with
  | nil => intro _ _ _; rfl
  | cons p rest ih =>
    intro max_lnp best h
    have hp : ¬ max_lnp < np_max p.1 :=
      not_lt.mpr (h p (List.mem_cons_self p rest))
    simp only [gbf_go, if_neg hp]
    exact ih max_lnp best (fun q hq => h q (List.mem_cons_of_mem p hq))

theorem gbf_go_spec : ∀ (L : List (List EReal × List (List ℝ)))
    (max_lnp : EReal) (best : Option (List ℝ)) (M : EReal),
    (∀ p ∈ L, p.1 ≠ []) →
    M = np_max (L.map Prod.fst).flatten →
    max_lnp < M →
    gbf_go L max_lnp best =
      (match L.find? (fun p => decide (M ∈ p.1)) with
        | some p => some (p.2.getD (firstIdx p.1 M) [])
        | none => none) := by
  intro L
  induction L with
  | nil =>
    intro max_lnp best M hne hM hlt
    rw [hM] at hlt
    exact absurd hlt (not_lt_bot)
  | cons p rest ih =>
    intro max_lnp best M hne hM hlt
    have hMsplit : M = max (np_max p.1) (np_max (rest.map Prod.fst).flatten) := by
      rw [hM, List.map_cons, List.flatten_cons, np_max_append]
    have hrestle : ∀ q ∈ rest, np_max q.1 ≤ np_max (rest.map Prod.fst).flatten := by
      intro q hq
      refine np_max_le ?_
      intro v hv
      exact le_np_max (List.mem_flatten.mpr ⟨q.1, List.mem_map_of_mem Prod.fst hq, hv⟩)
    by_cases hA : max_lnp < np_max p.1
    · simp only [gbf_go, if_pos hA]
      by_cases hA1 : np_max (rest.map Prod.fst).flatten ≤ np_max p.1
      · have hMp : M = np_max p.1 := by
          rw [hMsplit]
          exact max_eq_left hA1
        have hmem : M ∈ p.1 := hMp ▸ np_max_mem (hne p (List.mem_cons_self p rest))
        have hfind : List.find? (fun q => decide (M ∈ q.1)) (p :: rest) = some p :=
          List.find?_cons_of_pos rest (decide_eq_true hmem)
        rw [hfind, gbf_go_stall rest (np_max p.1) _
          (fun q hq => le_trans (hrestle q hq) hA1), hMp]
      · push_neg at hA1
        have hMM : M = np_max (rest.map Prod.fst).flatten := by
          rw [hMsplit]
          exact max_eq_right (le_of_lt hA1)
        have hnotmem : ¬ M ∈ p.1 := by
          intro hm
          exact absurd (le_np_max hm) (not_le.mpr (hMM ▸ hA1))
        have hfind : List.find? (fun q => decide (M ∈ q.1)) (p :: rest)
            = List.find? (fun q => decide (M ∈ q.1)) rest :=
          List.find?_cons_of_neg rest (by simp only [decide_eq_true_eq]; exact hnotmem)
        rw [hfind]
        exact ih (np_max p.1) _ M
          (fun q hq => hne q (List.mem_cons_of_mem p hq)) hMM (hMM ▸ hA1)
    · simp only [gbf_go, if_neg hA]
      have hpltM : np_max p.1 < M := lt_of_le_of_lt (not_lt.mp hA) hlt
      have hMM : M = np_max (rest.map Prod.fst).flatten := by
        rcases le_or_lt (np_max (rest.map Prod.fst).flatten) (np_max p.1) with hle | hlt2
        · exfalso
          have hMp : M = np_max p.1 := by
            rw [hMsplit]
            exact max_eq_left hle
          rw [hMp] at hpltM
          exact lt_irrefl _ hpltM
        · rw [hMsplit]
          exact max_eq_right (le_of_lt hlt2)
      have hnotmem : ¬ M ∈ p.1 := by
        intro hm
        exact absurd (le_np_max hm) (not_le.mpr hpltM)
      have hfind : List.find? (fun q => decide (M ∈ q.1)) (p :: rest)
          = List.find? (fun q => decide (M ∈ q.1)) rest :=
        List.find?_cons_of_neg rest (by simp only [decide_eq_true_eq]; exact hnotmem)
      rw [hfind]
      exact ih max_lnp best M
        (fun q hq => hne q (List.mem_cons_of_mem p hq)) hMM (hMM ▸ hlt)

/-- C6 (amended): whenever the maximum stored log-probability over all walkers
and steps exceeds the `-1e32` threshold (and each walker has at least one
stored step), `get_best_fit_params` returns exactly the chain sample at the
first (walker, step) index attaining that maximum; when the maximum does not
exceed `-1e32` it returns `none` instead (see the counterexample). -/
theorem C6_best_fit_amended (s : Sampler)
    (hlen : s.lnprobability.length ≤ s.chain.length)
    (hne : ∀ row ∈ s.lnprobability, row ≠ [])
    (hM : ((-(10 ^ 32) : ℝ) : EReal) < globalMax s) :
    get_best_fit_params s = spec_best s := by
  have hfst : (s.lnprobability.zip s.chain).map Prod.fst = s.lnprobability :=
    List.map_fst_zip _ _ hlen
  have hne2 : ∀ p ∈ s.lnprobability.zip s.chain, p.1 ≠ [] := by
    intro p hp
    obtain ⟨a, b⟩ := p
    exact hne a (List.of_mem_zip hp).1
  have hMeq : globalMax s = np_max (((s.lnprobability.zip s.chain).map Prod.fst).flatten) := by
    rw [hfst]
    rfl
  unfold get_best_fit_params spec_best
  exact gbf_go_spec _ _ _ _ hne2 hMeq hM

/-- C6 counterexample: on a sampler whose stored log-probability arrays do
contain a maximum (here `-1e33`, attained at walker 0, step 0, with chain
sample `[1]`), `get_best_fit_params` nevertheless returns `none`, not that
chain sample, because the maximum does not exceed the `-1e32` threshold. -/
theorem C6_low_lnp_counterexample :
    get_best_fit_params sLow = none ∧ spec_best sLow = some [1] := by
  have hnp : np_max [((-(10 ^ 33) : ℝ) : EReal)] = ((-(10 ^ 33) : ℝ) : EReal) := by
    rw [np_max_cons]
    exact max_eq_left bot_le
  constructor
  · have hnlt : ¬ (((-(10 ^ 32) : ℝ) : EReal) <
        np_max [((-(10 ^ 33) : ℝ) : EReal)]) := by
      rw [hnp]
      simp only [EReal.coe_lt_coe_iff, not_lt]
      norm_num
    show gbf_go [([((-(10 ^ 33) : ℝ) : EReal)], [[(1 : ℝ)]])]
      ((-(10 ^ 32) : ℝ) : EReal) none = none
    simp only [gbf_go, if_neg hnlt]
  · have hgm : globalMax sLow = ((-(10 ^ 33) : ℝ) : EReal) := by
      show np_max ([[((-(10 ^ 33) : ℝ) : EReal)]].flatten) = _
      rw [show ([[((-(10 ^ 33) : ℝ) : EReal)]].flatten)
        = [((-(10 ^ 33) : ℝ) : EReal)] from rfl]
      exact hnp
    have hidx : firstIdx [((-(10 ^ 33) : ℝ) : EReal)]
        (((-(10 ^ 33) : ℝ) : EReal)) = 0 := by
      unfold firstIdx
      rw [List.findIdx_cons, decide_eq_true rfl]
      rfl
    unfold spec_best
    rw [hgm]
    have hfind : List.find? (fun p => decide (((-(10 ^ 33) : ℝ) : EReal) ∈ p.1))
        (sLow.lnprobability.zip sLow.chain)
        = some ([((-(10 ^ 33) : ℝ) : EReal)], [[(1 : ℝ)]]) := by
      show List.find? _ [([((-(10 ^ 33) : ℝ) : EReal)], [[(1 : ℝ)]])] = _
      exact List.find?_cons_of_pos [] (decide_eq_true (List.mem_singleton_self _))
    rw [hfind]
    show some (([[(1 : ℝ)]] : List (List ℝ)).getD
      (firstIdx [((-(10 ^ 33) : ℝ) : EReal)] (((-(10 ^ 33) : ℝ) : EReal))) [])
      = some [(1 : ℝ)]
    rw [hidx]
    rfl

/-- C6 witness for the amended theorem, on a sampler with a single stored
log-probability of 1. -/
theorem C6_amended_witness :
    sOne.lnprobability.length ≤ sOne.chain.length ∧
    (∀ row ∈ sOne.lnprobability, row ≠ []) ∧
    ((-(10 ^ 32) : ℝ) : EReal) < globalMax sOne ∧
    get_best_fit_params sOne = spec_best sOne := by
  have h1 : sOne.lnprobability.length ≤ sOne.chain.length := le_refl 1
  have h2 : ∀ row ∈ sOne.lnprobability, row ≠ [] := by
    intro row hrow
    rw [show sOne.lnprobability = [[((1 : ℝ) : EReal)]] from rfl,
      List.mem_singleton] at hrow
    subst hrow
    simp
  have h3 : ((-(10 ^ 32) : ℝ) : EReal) < globalMax sOne := by
    have hg : globalMax sOne = ((1 : ℝ) : EReal) := by
      show np_max [((1 : ℝ) : EReal)] = _
      rw [np_max_cons]
      exact max_eq_left bot_le
    rw [hg, EReal.coe_lt_coe_iff]
    norm_num
  exact ⟨h1, h2, h3, C6_best_fit_amended sOne h1 h2 h3⟩

/-- C10: whenever every stored log-probability of every walker is at most
`-1e32` (each walker having at least one stored step), `get_best_fit_params`
returns `none`: no best-fit parameter vector exists. -/
theorem C10_all_low_returns_none (s : Sampler)
    (h : ∀ row ∈ s.lnprobability, row ≠ [] ∧
      ∀ v ∈ row, v ≤ ((-(10 ^ 32) : ℝ) : EReal)) :
    get_best_fit_params s = none := by
  unfold get_best_fit_params
  refine gbf_go_stall _ _ _ ?_
  intro p hp
  obtain ⟨a, b⟩ := p
  exact np_max_le (h a (List.of_mem_zip hp).1).2

/-- C10 witness: a sampler whose only stored log-probability is `-np.inf`
(all proposals rejected) has no best fit. -/
theorem C10_witness :
    (∀ row ∈ sBot.lnprobability, row ≠ [] ∧
      ∀ v ∈ row, v ≤ ((-(10 ^ 32) : ℝ) : EReal)) ∧
    get_best_fit_params sBot = none := by
  have h : ∀ row ∈ sBot.lnprobability, row ≠ [] ∧
      ∀ v ∈ row, v ≤ ((-(10 ^ 32) : ℝ) : EReal) := by
    intro row hrow
    rw [show sBot.lnprobability = [[(⊥ : EReal)]] from rfl,
      List.mem_singleton] at hrow
    subst hrow
    refine ⟨by simp, ?_⟩
    intro v hv
    rw [List.mem_singleton] at hv
    subst hv
    exact bot_le
  exact ⟨h, C10_all_low_returns_none sBot h⟩

/-! ### The percentile summary -/

theorem chunks_flatten {n : ℕ} (hn : n ≠ 0) :
    ∀ rows : List (List ℝ), (∀ r ∈ rows, r.length = n) →
      chunks n rows.flatten = rows := by
  intro rows
  induction rows with
  | nil =>
    intro _
    rw [show (([] : List (List ℝ)).flatten) = [] from rfl, chunks]
    rw [dif_pos (Or.inl rfl)]
  | cons r rest ih =>
    intro hrow
    have hr : r.length = n := hrow r (List.mem_cons_self r rest)
    have hrne : r ≠ [] := by
      intro h0
      rw [h0] at hr
      exact hn hr.symm
    rw [chunks]
    have hcond : ¬ ((r :: rest).flatten = [] ∨ n = 0) := by
      push_neg
      refine ⟨?_, hn⟩
      rw [List.flatten_cons]
      intro happ
      exact hrne (List.append_eq_nil.mp happ).1
    rw [dif_neg hcond, List.flatten_cons, List.take_left' hr, List.drop_left' hr]
    exact congrArg (r :: ·) (ih (fun q hq => hrow q (List.mem_cons_of_mem r hq)))

theorem pyZip3_map {α : Type} (f g h3 : α → ℝ) (l : List α) :
    pyZip3 (l.map f) (l.map g) (l.map h3) = l.map (fun x => (f x, g x, h3 x)) := by
  induction l with
  | nil => rfl
  | cons a t ih =>
    simp only [List.map_cons, pyZip3, ih]

/-- C7: the percentile step of `p92_emcee` computes, for each fit parameter,
exactly the triple `(p50, p84 - p50, p50 - p16)` of percentiles of that
parameter's marginal over the stored samples flattened across all walkers
(every stored vector having one entry per fit parameter). -/
theorem C7_percentile_triples (chain : List (List (List ℝ))) (ndim : ℕ)
    (hshape : ∀ w ∈ chain, ∀ v ∈ w, v.length = ndim) :
    emcee_per_params chain ndim = spec_per_params chain ndim := by
  rcases Nat.eq_zero_or_pos ndim with h0 | hpos
  · subst h0
    rfl
  · have hflat : ∀ r ∈ chain.flatten, r.length = ndim := by
      intro r hr
      obtain ⟨w, hw, hrw⟩ := List.mem_flatten.mp hr
      exact hshape w hw r hrw
    have hch : chunks ndim chain.flatten.flatten = chain.flatten :=
      chunks_flatten (Nat.pos_iff_ne_zero.mp hpos) chain.flatten hflat
    simp only [emcee_per_params, spec_per_params]
    rw [hch, pyZip3_map, List.map_map]
    rfl

/-- C7 witness: a one-walker, one-step, one-parameter chain. -/
theorem C7_witness :
    (∀ w ∈ [[[(1 : ℝ)]]], ∀ v ∈ w, v.length = 1) ∧
    emcee_per_params [[[(1 : ℝ)]]] 1 = spec_per_params [[[(1 : ℝ)]]] 1 := by
  have hshape : ∀ w ∈ [[[(1 : ℝ)]]], ∀ v ∈ w, v.length = 1 := by
    intro w hw v hv
    rw [List.mem_singleton] at hw
    subst hw
    rw [List.mem_singleton] at hv
    subst hv
    rfl
  exact ⟨hshape, C7_percentile_triples [[[(1 : ℝ)]]] 1 hshape⟩

/-! ### ExtData save/load round-trip -/

/-- C8: saving an extinction curve and reloading it from the saved file
reproduces the wavelength, extinction-value and uncertainty (and
number-of-points) arrays of every passband identically. -/
theorem C8_save_load_roundtrip (e : ExtDataM) :
    ExtData_load (ExtData_save e) = e := by
  obtain ⟨l⟩ := e
  unfold ExtData_save ExtData_load
  rw [List.map_map]
  congr 1
  induction l with
  | nil => rfl
  | cons p t ih =>
    rw [List.map_cons, ih]
    obtain ⟨name, cols⟩ := p
    obtain ⟨w, xv, u, np⟩ := cols
    rfl

end Spitzer

end
